import Mathlib

/-!
Verification of the record-normalization and anemia-classification pipeline of the
Prakash-Koppal dashboard (`app.py`).  The Python functions `parse_age`,
`classify_anemia_who`, the normalization part of `load_data`, and the cascading
filter-option computation of `update_dashboard` are shallowly embedded below.
Python floats are modeled as rationals; `NaN`/missing cells are modeled by
explicit `Option`/variant types.  All string work is done on `List Char` so that
the Python `str` operations (`lower`, `strip`, `replace`, the fixed regular
expressions of `parse_age`) can be given faithful executable models.
-/

namespace Prakash

/-! ### Character and string primitives -/

/-- Python whitespace test used by `str.strip` and the regex class `\s`
(restricted to the ASCII whitespace actually produced by the data source). -/
def isWs (c : Char) : Bool := c.isWhitespace

/-- `lower` over a character list (Python `str.lower`, ASCII range). -/
def lowerL (l : List Char) : List Char := l.map Char.toLower

/-- `strip` over a character list (Python `str.strip`). -/
def trimL (l : List Char) : List Char :=
  ((l.dropWhile isWs).reverse.dropWhile isWs).reverse

/-- Does `p` stand at the head of `l`?  (Helper for substring search.) -/
def leads : List Char → List Char → Bool
  | [], _ => true
  | _ :: _, [] => false
  | a :: as, b :: bs => a == b && leads as bs

/-- Python substring containment `p in s`. -/
def seg (p : List Char) : List Char → Bool
  | [] => p.isEmpty
  | c :: tl => leads p (c :: tl) || seg p tl

/-- Worker for `delAll`, structurally recursive on a fuel bound so that it
reduces inside the kernel; the fuel never runs out when it starts at the
length of the list. -/
def delAllAux (p : List Char) : ℕ → List Char → List Char
  | _, [] => []
  | 0, l => l
  | fuel + 1, c :: tl =>
    if p ≠ [] ∧ leads p (c :: tl) then delAllAux p fuel (tl.drop (p.length - 1))
    else c :: delAllAux p fuel tl

/-- Python `str.replace(pat, "")`: delete every occurrence of `pat`,
scanning left to right without rescanning replaced text. -/
def delAll (p l : List Char) : List Char := delAllAux p l.length l

/-- Numeric value of a digit character. -/
def digitVal (c : Char) : ℕ := c.toNat - 48

/-- Value of a decimal digit string. -/
def digitsVal (l : List Char) : ℕ := l.foldl (fun a c => 10 * a + digitVal c) 0

/-- Value of the fractional digit string after a decimal point. -/
def fracVal (l : List Char) : ℚ := (digitsVal l : ℚ) / (10 : ℚ) ^ l.length

/-- Unsigned part of Python `float()` parsing: `digits[.digits]` or `.digits`. -/
def parseUnsigned (l : List Char) : Option ℚ :=
  let ds := l.takeWhile Char.isDigit
  let rest := l.dropWhile Char.isDigit
  match rest with
  | [] => if ds.isEmpty then none else some (digitsVal ds)
  | '.' :: fr =>
    if fr.all Char.isDigit && !(ds.isEmpty && fr.isEmpty) then
      some ((digitsVal ds : ℚ) + fracVal fr)
    else none
  | _ => none

/-- Python `float(s)`: surrounding whitespace, an optional sign, then digits with an
optional fractional part.  Exponent, `inf`/`nan` and underscore forms are not modeled;
they do not occur in the inputs the claims quantify over, and every value such a form
could produce is screened by the same `< 150` bound as the modeled forms. -/
def pyFloat (l : List Char) : Option ℚ :=
  match trimL l with
  | [] => none
  | c :: r =>
    if c == '+' then parseUnsigned r
    else if c == '-' then (parseUnsigned r).map (fun q => -q)
    else parseUnsigned (c :: r)

/-! ### The fixed regular expressions of `parse_age` -/

/-- Is the character one of the date separators, a dash or a slash? -/
def isSep (c : Char) : Bool := c == '-' || c == '/'

/-- Do `k` digit characters stand at the head of `l`? -/
def digitsChunk (k : ℕ) (l : List Char) : Bool :=
  (l.take k).length == k && (l.take k).all Char.isDigit

/-- Is the character at offset `k` a date separator? -/
def sepAt (l : List Char) (k : ℕ) : Bool :=
  match l.drop k with
  | c :: _ => isSep c
  | [] => false

/-- Does the date shape — one to four digits, a separator, one or two digits,
a separator, one to four digits — match at the head of `l`?  A backtracking
regex matches here exactly when some choice of the three digit-group widths
matches, so the bounded widths are tried explicitly. -/
def dateMatchAt (l : List Char) : Bool :=
  [1, 2, 3, 4].any fun k1 =>
    digitsChunk k1 l && sepAt l k1 &&
      ([1, 2].any fun k2 =>
        digitsChunk k2 (l.drop (k1 + 1)) && sepAt (l.drop (k1 + 1)) k2 &&
          ([1, 2, 3, 4].any fun k3 => digitsChunk k3 (l.drop (k1 + 1 + k2 + 1))))

/-- `re.search` of the date shape anywhere in the string. -/
def hasDatePattern (l : List Char) : Bool := l.tails.any dateMatchAt

/-- After skipping `\s*`, is the next character `t`? -/
def wsSkipHeadIs (t : Char) (l : List Char) : Bool :=
  match l.dropWhile isWs with
  | c :: _ => c == t
  | [] => false

/-- `re.search(r'(\d+(\.\d+)?)\s*(y|yr|year)', s)` (and the `m|mo|month` twin):
the first alternative is a single letter, so the pattern matches at a position
exactly when a number followed by optional whitespace and that letter does; the
returned value is group 1 of the leftmost match.  Backtracking inside the number
only ever needs the two candidates "with fraction" and "without fraction",
because any shorter digit run is followed by a digit, which can extend neither
`\s*` nor the literal letter. -/
def searchNumThen (t : Char) : List Char → Option ℚ
  | [] => none
  | c :: tl =>
    if c.isDigit then
      match List.dropWhile Char.isDigit (c :: tl) with
      | '.' :: fr =>
        if (fr.takeWhile Char.isDigit).isEmpty then
          if wsSkipHeadIs t ('.' :: fr) then
            some (digitsVal (List.takeWhile Char.isDigit (c :: tl)) : ℚ)
          else searchNumThen t tl
        else
          if wsSkipHeadIs t (fr.dropWhile Char.isDigit) then
            some ((digitsVal (List.takeWhile Char.isDigit (c :: tl)) : ℚ) +
              fracVal (fr.takeWhile Char.isDigit))
          else if wsSkipHeadIs t ('.' :: fr) then
            some (digitsVal (List.takeWhile Char.isDigit (c :: tl)) : ℚ)
          else searchNumThen t tl
      | r1 =>
        if wsSkipHeadIs t r1 then
          some (digitsVal (List.takeWhile Char.isDigit (c :: tl)) : ℚ)
        else searchNumThen t tl
    else searchNumThen t tl

theorem len_dropWhile_le (p : α → Bool) (l : List α) :
    (l.dropWhile p).length ≤ l.length := by
  induction l with
  | nil => simp
  | cons a tl ih =>
    by_cases h : p a
    · simp only [List.dropWhile_cons_of_pos h, List.length_cons]; omega
    · simp [List.dropWhile_cons_of_neg h]

theorem len_dropWhile_cons_lt (p : α → Bool) (c : α) (tl : List α) (h : p c = true) :
    (List.dropWhile p (c :: tl)).length < (c :: tl).length := by
  simp only [List.dropWhile_cons_of_pos h, List.length_cons]
  have := len_dropWhile_le p tl
  omega

/-- Worker for `findNums`, structurally recursive on a fuel bound (each
recursive call is on a strictly shorter list, so fuel equal to the length of
the starting list never runs out). -/
def findNumsAux : ℕ → List Char → List ℚ
  | _, [] => []
  | 0, _ => []
  | fuel + 1, c :: tl =>
    if c.isDigit then
      match List.dropWhile Char.isDigit (c :: tl) with
      | '.' :: fr =>
        if (fr.takeWhile Char.isDigit).isEmpty then
          (digitsVal (List.takeWhile Char.isDigit (c :: tl)) : ℚ) :: findNumsAux fuel ('.' :: fr)
        else
          ((digitsVal (List.takeWhile Char.isDigit (c :: tl)) : ℚ) +
            fracVal (fr.takeWhile Char.isDigit)) :: findNumsAux fuel (fr.dropWhile Char.isDigit)
      | r1 => (digitsVal (List.takeWhile Char.isDigit (c :: tl)) : ℚ) :: findNumsAux fuel r1
    else findNumsAux fuel tl

/-- `re.findall(r'(\d+(\.\d+)?)', s)`, keeping group 1 of each non-overlapping
left-to-right match as a number. -/
def findNums (l : List Char) : List ℚ := findNumsAux l.length l

/-! ### Rounding -/

/-- Python `round()` to an integer: round half to even. -/
def rhe (x : ℚ) : ℤ :=
  let f := ⌊x⌋
  if x - f < 1 / 2 then f
  else if 1 / 2 < x - f then f + 1
  else if f % 2 = 0 then f else f + 1

/-- Python `round(x, 2)` (exact decimal ties modeled exactly; the float inputs
arising in the claims are never within a float error of a tie). -/
def round2 (x : ℚ) : ℚ := (rhe (x * 100) : ℚ) / 100

/-! ### `parse_age` (app.py lines 32-85) -/

/-- The scalar shapes an `Age` cell can take.  `null` covers both a missing cell
and a float `NaN` (`pd.isna` accepts either); `dateObj` is a value carrying
`year`/`month` attributes, which `parse_age` rejects. -/
inductive AgeInput
  | null
  | num (q : ℚ)
  | dateObj
  | txt (s : String)
deriving DecidableEq, Repr

/-- Line 85 of app.py: accept a composed result only strictly between 0 and 150. -/
def acceptAge (res : ℚ) : Option ℚ :=
  if 0 < res ∧ res < 150 then some res else none

/-- Lines 49-54: the suffix-stripped string handed to the direct `float()` try. -/
def cleanOf (age_str : List Char) : List Char :=
  trimL (delAll "yr.".data (delAll "yrs".data (delAll "yr".data age_str)))

/-- Line 52: a successful direct parse is accepted below 150. -/
def floatCap (v : ℚ) : Option ℚ := if v < 150 then some v else none

/-- Lines 60-82: the years/months pair from the suffix regexes, falling back to
the bare-number scan when neither suffix matched.  A years figure above 1900 is
treated as a stray birth year and zeroed. -/
def ymPick (yM mM : Option ℚ) (fallback : List ℚ) : ℚ × ℚ :=
  if yM.isSome || mM.isSome then
    (if 1900 < yM.getD 0 then 0 else yM.getD 0, mM.getD 0)
  else
    match fallback with
    | [] => (0, 0)
    | n1 :: rest =>
      if 1900 < n1 then
        match rest with
        | [] => (0, 0)
        | n2 :: rest2 => (n2, rest2.headD 0)
      else (n1, rest.headD 0)

/-- Line 84: compose years and months. -/
def composeAge (ym : ℚ × ℚ) : Option ℚ := acceptAge (round2 (ym.1 + ym.2 / 12))

/-- Lines 56-85: the regex stage entered when the direct parse fails. -/
def regexBranch (age_str : List Char) : Option ℚ :=
  if hasDatePattern age_str then none
  else
    composeAge (ymPick (searchNumThen 'y' age_str) (searchNumThen 'm' age_str)
      (findNums age_str))

/-- The string branch of `parse_age`, lines 46-85 of app.py. -/
def parseAgeChars (raw : List Char) : Option ℚ :=
  match pyFloat (cleanOf (trimL (lowerL raw))) with
  | some v => floatCap v
  | none => regexBranch (trimL (lowerL raw))

/-- app.py `parse_age`. -/
def parse_age : AgeInput → Option ℚ
  | .null => none
  | .num q => if q < 150 then some q else none
  | .dateObj => none
  | .txt s => if s = "" then none else parseAgeChars s.data

/-! ### `classify_anemia_who` (app.py lines 87-248) -/

/-- The closed set of classification outcomes. -/
inductive Category
  | normal
  | mild
  | moderate
  | severe
  | incomplete
deriving DecidableEq, Repr

/-- The hemoglobin argument: missing (`None`/`NaN`), present but not coercible
to `float`, or a numeric value. -/
inductive HgbInput
  | missing
  | notNum
  | val (q : ℚ)
deriving DecidableEq, Repr

/-- `str(x).lower().strip() if not pd.isna(x) else ""`. -/
def pyNormStr (o : Option String) : List Char :=
  match o with
  | some s => trimL (lowerL s.data)
  | none => []

/-- One threshold block: `normal` at or above `n`, `mild` at or above `m`,
`moderate` at or above `mo`, otherwise `severe`. -/
def gradeBy (h n m mo : ℚ) : Category :=
  if h ≥ n then .normal
  else if h ≥ m then .mild
  else if h ≥ mo then .moderate
  else .severe

/-- app.py `classify_anemia_who`.  The `age` argument is modeled as
already-numeric-or-missing (`Option ℚ`): lines 110-116 of the source coerce it
and the pipeline only ever passes the output of the age resolver. -/
def classify_anemia_who (hgb : HgbInput) (age : Option ℚ) (gender benef : Option String) :
    Category :=
  match hgb with
  | .missing => .incomplete
  | .notNum => .incomplete
  | .val h =>
    let gs := pyNormStr gender
    let bs := pyNormStr benef
    if seg "pregnant".data bs then gradeBy h 11 10 7
    else if seg "5-9 months".data bs || seg "children 5-9 months".data bs then
      gradeBy h 11 10 7
    else if seg "5-9 years".data bs || seg "60 months".data bs then
      gradeBy h 11.5 11 8
    else if seg "adolescent girls".data bs || (seg "adolescent".data bs && seg "female".data gs) then
      gradeBy h 12 11 8
    else if seg "adolescent boys".data bs || (seg "adolescent".data bs && seg "male".data gs) then
      gradeBy h 12 11 8
    else if seg "women of reproductive age".data bs || seg "reproductive age".data bs then
      gradeBy h 12 11 8
    else
      match age with
      | some a =>
        if a < 5 then gradeBy h 11 10 7
        else if a < 12 then gradeBy h 11.5 11 8
        else if seg "female".data gs || gs == "f".data then gradeBy h 12 11 8
        else if seg "male".data gs || gs == "m".data then gradeBy h 13 11 8
        else gradeBy h 12 11 8
      | none => .incomplete

/-! ### The normalization part of `load_data` (app.py lines 296-370)

Only the columns the claims depend on are modeled (`HGB`, `Age`, `DOB`,
`enrollment_date`, `Gender`, `Benificiery`, `anemia_category`); the display-only
columns (`Name`, `Area COde`, ...) do not influence classification or retention.
Dates are modeled as integer day numbers. -/

/-- A raw spreadsheet cell: empty, numeric, or textual. -/
inductive Cell
  | null
  | num (q : ℚ)
  | txt (s : String)
deriving DecidableEq, Repr

/-- `pd.to_numeric(_, errors="coerce")` on one cell. -/
def toNumeric (c : Cell) : Option ℚ :=
  match c with
  | .null => none
  | .num q => some q
  | .txt s => pyFloat s.data

/-- The coerced `HGB` column value as the classifier receives it. -/
def hgbInput (c : Cell) : HgbInput :=
  match toNumeric c with
  | some q => .val q
  | none => .missing

/-- app.py `BENEFICIARY_MAP` (keyed by the coerced numeric code). -/
def BENEFICIARY_MAP (q : ℚ) : Option String :=
  if q = 2 then some "Pregnant Women"
  else if q = 3 then some "Children 5-9 Months"
  else if q = 4 then some "Children Aged 5-9 Years  (60 Months)"
  else if q = 5 then some "Adolescent Girls 10-19 Years"
  else if q = 6 then some "Adolescent Boys 10-19 Years"
  else if q = 7 then some "Women Of Reproductive Age"
  else none

/-- Python `str.title()` over a character list: a cased character is uppercased
when the previous character is not alphabetic, lowercased otherwise. -/
def titleChars : Bool → List Char → List Char
  | _, [] => []
  | prevAlpha, c :: tl =>
    (if c.isAlpha then (if prevAlpha then c.toLower else c.toUpper) else c)
      :: titleChars c.isAlpha tl

/-- Python `str.title()`. -/
def titleStr (s : String) : String := ⟨titleChars false s.data⟩

/-- Python `str()` of a float value, modeled for integral values — the only
values the unmapped-code path of the beneficiary pipeline receives. -/
def floatStr (q : ℚ) : String :=
  if q.den = 1 then toString q.num ++ ".0" else toString q

/-- app.py lines 333-336: the `Benificiery` column is coerced with
`pd.to_numeric(errors="coerce")` (overwriting the original strings), mapped
through `BENEFICIARY_MAP`, `fillna`-ed with the *coerced* column, stringified
and title-cased.  A cell that was a non-numeric string is therefore `NaN` by
the time `fillna` runs, and ends as the string `"Nan"`. -/
def normBenif (c : Cell) : String :=
  match toNumeric c with
  | none => "Nan"
  | some q =>
    match BENEFICIARY_MAP q with
    | some lbl => titleStr lbl
    | none => titleStr (floatStr q)

/-- One raw input row, restricted to the modeled columns. -/
structure RawRecord where
  hgb : Cell
  ageCell : AgeInput
  dob : Option ℤ
  enrollment : Option ℤ
  gender : Option String
  benificiery : Cell
  anemiaIn : Option String
deriving DecidableEq

/-- One fetched table: the rows plus whether the `HGB` column is present at all
(line 342 vs line 353 of app.py), and the current date used when
`enrollment_date` is missing (line 308). -/
structure LoadInput where
  hasHgbCol : Bool
  now : ℤ
  records : List RawRecord
deriving DecidableEq

/-- A normalized row as it stands after app.py line 368. -/
structure NormRecord where
  age : Option ℚ
  gender : Option String
  benificiery : String
  anemia : Option Category
deriving DecidableEq, Repr

/-- app.py lines 299-323: `parse_age` on the `Age` cell, then the DOB fallback
`round((ref - dob).days / 365.25, 2)` accepted on `0 ≤ x < 150`, with
`enrollment_date` (or now) as the reference. -/
def resolveAge (now : ℤ) (r : RawRecord) : Option ℚ :=
  match parse_age r.ageCell with
  | some v => some v
  | none =>
    match r.dob with
    | some d =>
      let ref := r.enrollment.getD now
      let a := round2 (((ref - d : ℤ) : ℚ) / (365.25 : ℚ))
      if 0 ≤ a ∧ a < 150 then some a else none
    | none => none

/-- app.py lines 328-331: the incoming `anemia_category` column is stripped,
mapped through the label table and lower-cased.  The result is dead: lines
341-353 overwrite the column unconditionally. -/
def anemiaPreprocess (a : Option String) : String :=
  let s := (a.getD "nan").trim
  if s = "Normal" then "normal"
  else if s = "Mild anemia" then "mild"
  else if s = "Moderate anemia" then "moderate"
  else if s = "Severe anemia" then "severe"
  else s.toLower

/-- Normalization of one row: resolved age, normalized beneficiary, and the
anemia category recomputed by the classifier (lines 341-351), or set to `None`
when the table has no `HGB` column (line 353).  The preprocessed incoming
anemia value (`anemiaPreprocess`) is overwritten and therefore not retained. -/
def normalizeRecord (hasHgbCol : Bool) (now : ℤ) (r : RawRecord) : NormRecord :=
  let age := resolveAge now r
  let benif := normBenif r.benificiery
  { age := age
    gender := r.gender
    benificiery := benif
    anemia :=
      if hasHgbCol then
        some (classify_anemia_who (hgbInput r.hgb) age r.gender (some benif))
      else none }

/-- app.py lines 361-366: a usable beneficiary value after stringification. -/
def hasBeneficiary (b : String) : Bool :=
  !(b == "") && !(b.toLower == "nan") && !(b.toLower == "none")

/-- app.py line 368: keep a row when it has a resolved age or a usable
beneficiary. -/
def retain (nr : NormRecord) : Bool :=
  nr.age.isSome || hasBeneficiary nr.benificiery

/-- The normalization-and-filter pass of `load_data` (lines 296-368). -/
def load_data (inp : LoadInput) : List NormRecord :=
  (inp.records.map (normalizeRecord inp.hasHgbCol inp.now)).filter retain

/-- Replace every row's incoming `anemia_category` cell. -/
def mapAnemiaIn (f : Option String → Option String) (inp : LoadInput) : LoadInput :=
  { inp with records := inp.records.map (fun r => { r with anemiaIn := f r.anemiaIn }) }

/-! ### Cascading filter options in `update_dashboard` (app.py lines 651-685)

The callback receives the stored records (the snapshot produced by `load_data`)
as plain dictionaries; only the four filterable columns matter here. -/

/-- One stored row as the callback sees it. -/
structure Row where
  area : Option String
  psu : Option String
  benif : Option String
  anemia : Option String
deriving DecidableEq, Repr

/-- The four dropdown selections (an empty list is an inactive filter, matching
the falsy test `if area:` on a Dash multi-dropdown value). -/
structure Sel where
  psu : List String
  area : List String
  benif : List String
  anemia : List String

/-- The four filter dimensions. -/
inductive Dim
  | psu
  | area
  | benif
  | anemia
deriving DecidableEq, Repr

/-- Column accessor per dimension. -/
def getField : Dim → Row → Option String
  | .psu => Row.psu
  | .area => Row.area
  | .benif => Row.benif
  | .anemia => Row.anemia

/-- Selection accessor per dimension. -/
def getSel : Dim → Sel → List String
  | .psu => Sel.psu
  | .area => Sel.area
  | .benif => Sel.benif
  | .anemia => Sel.anemia

/-- `df[df[col].isin(sel)]` guarded by the falsy test `if sel:`; a null cell is
never a member. -/
def filterBy (get : Row → Option String) (sel : List String) (rows : List Row) : List Row :=
  if sel = [] then rows
  else rows.filter fun r =>
    match get r with
    | some v => sel.contains v
    | none => false

/-- `sorted(series.dropna().unique())`: distinct non-null values in sorted
order. -/
def sortedUnique (l : List (Option String)) : List String :=
  (l.filterMap id).dedup.mergeSort (fun a b => a ≤ b)

/-- The option list offered for the PSU dropdown (lines 653-657): the full set
filtered by area, beneficiary and anemia. -/
def psuOptions (rows : List Row) (s : Sel) : List String :=
  sortedUnique ((filterBy Row.anemia s.anemia
    (filterBy Row.benif s.benif (filterBy Row.area s.area rows))).map Row.psu)

/-- Lines 660-662: the PSU selection is pruned to the values still offered. -/
def cleanedPsu (rows : List Row) (s : Sel) : List String :=
  if s.psu = [] then s.psu
  else s.psu.filter (fun p => (psuOptions rows s).contains p)

/-- Lines 664-669: area options from the full set filtered by the (cleaned)
PSU selection, beneficiary and anemia. -/
def areaOptions (rows : List Row) (s : Sel) : List String :=
  sortedUnique ((filterBy Row.anemia s.anemia
    (filterBy Row.benif s.benif
      (filterBy Row.psu (cleanedPsu rows s) rows))).map Row.area)

/-- Lines 671-676: beneficiary options from the full set filtered by area, the
(cleaned) PSU selection and anemia. -/
def benifOptions (rows : List Row) (s : Sel) : List String :=
  sortedUnique ((filterBy Row.anemia s.anemia
    (filterBy Row.psu (cleanedPsu rows s)
      (filterBy Row.area s.area rows))).map Row.benif)

/-- Lines 678-685: anemia options from the full set filtered by area, the
(cleaned) PSU selection and beneficiary (the dropdown values; the capitalized
labels are display-only). -/
def anemiaOptions (rows : List Row) (s : Sel) : List String :=
  sortedUnique ((filterBy Row.benif s.benif
    (filterBy Row.psu (cleanedPsu rows s)
      (filterBy Row.area s.area rows))).map Row.anemia)

/-- The selections in force when the callback returns: the PSU selection it
outputs is the cleaned one. -/
def effSel (rows : List Row) (s : Sel) : Sel :=
  { s with psu := cleanedPsu rows s }

/-- The dimensions other than `d`, in one fixed canonical order. -/
def others (d : Dim) : List Dim :=
  [Dim.psu, Dim.area, Dim.benif, Dim.anemia].filter (fun d' => d' ≠ d)

/-- Specification-side option list: the distinct values of dimension `d` in the
record set filtered by every dimension other than `d` (and nothing else). -/
def optionsFor (d : Dim) (rows : List Row) (s : Sel) : List String :=
  sortedUnique
    (((others d).foldl (fun acc d' => filterBy (getField d') (getSel d' s) acc) rows).map
      (getField d))

/-! ### Support definitions for the claim statements -/

/-- Re-inject a resolver result as a resolver input (a resolved age is a
numeric cell on the next pass, a null result a missing cell). -/
def reinj : Option ℚ → AgeInput
  | none => .null
  | some q => .num q

/-- The disjunction of all six beneficiary-substring branch guards of
`classify_anemia_who` (lines 125-188), in source order. -/
def benifMatches (bs gs : List Char) : Bool :=
  seg "pregnant".data bs ||
  (seg "5-9 months".data bs || seg "children 5-9 months".data bs) ||
  (seg "5-9 years".data bs || seg "60 months".data bs) ||
  (seg "adolescent girls".data bs || (seg "adolescent".data bs && seg "female".data gs)) ||
  (seg "adolescent boys".data bs || (seg "adolescent".data bs && seg "male".data gs)) ||
  (seg "women of reproductive age".data bs || seg "reproductive age".data bs)

/-- A one-row table with no `HGB` column whose row is retained through its age. -/
def c1CexInput : LoadInput :=
  { hasHgbCol := false, now := 0,
    records := [{ hgb := .null, ageCell := .num 20, dob := none, enrollment := none,
                  gender := none, benificiery := .null, anemiaIn := some "Normal" }] }

/-- A concrete retained row for the C1 witness. -/
def c1WitRecord : RawRecord :=
  { hgb := .num 9.5, ageCell := .num 20, dob := none, enrollment := none,
    gender := some "Female", benificiery := .num 2, anemiaIn := some "Normal" }

/-- A one-row table with an `HGB` column for the C1 witness. -/
def c1WitInput : LoadInput :=
  { hasHgbCol := true, now := 0, records := [c1WitRecord] }

/-- A concrete retained row for the C6 witness. -/
def c6WitRecord : RawRecord :=
  { hgb := .num 12, ageCell := .txt "21yrs", dob := none, enrollment := none,
    gender := some "M", benificiery := .null, anemiaIn := none }

/-- A one-row table for the C6 witness. -/
def c6WitInput : LoadInput :=
  { hasHgbCol := true, now := 0, records := [c6WitRecord] }

/-! ### Helper lemmas -/

theorem acceptAge_lt (r v : ℚ) (h : acceptAge r = some v) : v < 150 := by
  simp only [acceptAge] at h
  split at h
  · rename_i hr; cases h; exact hr.2
  · exact absurd h (by simp)

theorem floatCap_lt (w v : ℚ) (h : floatCap w = some v) : v < 150 := by
  simp only [floatCap] at h
  split at h
  · cases h; assumption
  · exact absurd h (by simp)

theorem regexBranch_lt (s : List Char) (v : ℚ) (h : regexBranch s = some v) : v < 150 := by
  simp only [regexBranch] at h
  split at h
  · exact absurd h (by simp)
  · exact acceptAge_lt _ v h

theorem parseAgeChars_lt (l : List Char) (v : ℚ) (h : parseAgeChars l = some v) :
    v < 150 := by
  simp only [parseAgeChars] at h
  split at h
  · exact floatCap_lt _ v h
  · exact regexBranch_lt _ v h

theorem parse_age_lt (x : AgeInput) (v : ℚ) (h : parse_age x = some v) : v < 150 := by
  cases x with
  | null => exact absurd h (by simp [parse_age])
  | num q =>
    simp only [parse_age] at h
    split at h
    · cases h; assumption
    · exact absurd h (by simp)
  | dateObj => exact absurd h (by simp [parse_age])
  | txt s =>
    simp only [parse_age] at h
    split at h
    · exact absurd h (by simp)
    · exact parseAgeChars_lt s.data v h

/-! ### Character-class and scanning lemmas (for the age-suffix claim) -/

theorem toLower_of_isDigit (c : Char) (h : c.isDigit = true) : c.toLower = c := by
  simp only [Char.isDigit] at h
  obtain ⟨h1, h2⟩ := Bool.and_eq_true_iff.mp h
  simp only [decide_eq_true_eq] at h1 h2
  simp only [Char.toLower, Char.toNat]
  rw [if_neg]
  intro ⟨ha, _⟩
  have h2' : c.val.toNat ≤ 57 := by exact_mod_cast h2
  omega

theorem beq_false_of_isDigit (c x : Char) (hc : c.isDigit = true) (hx : x.isDigit = false) :
    (c == x) = false := by
  cases h : c == x
  · rfl
  · have he := eq_of_beq h
    subst he
    rw [hc] at hx
    cases hx

theorem head_beq_false (a c : Char) (ha : a.isDigit = false) (hc : c.isDigit = true) :
    (a == c) = false := by
  cases h : a == c
  · rfl
  · have he := eq_of_beq h
    subst he
    rw [hc] at ha
    cases ha

theorem isWs_false_of_isDigit (c : Char) (h : c.isDigit = true) : isWs c = false := by
  have hne : ∀ x : Char, x.isDigit = false → ¬(c = x) := by
    intro x hx he
    subst he
    rw [h] at hx
    cases hx
  simp [isWs, Char.isWhitespace, hne ' ' (by decide), hne '\t' (by decide),
    hne '\r' (by decide), hne '\n' (by decide)]

theorem isSep_false_of_isDigit (c : Char) (h : c.isDigit = true) : isSep c = false := by
  simp [isSep, beq_false_of_isDigit c '-' h (by decide),
    beq_false_of_isDigit c '/' h (by decide)]

theorem lowerL_id (l : List Char) (h : ∀ c ∈ l, c.toLower = c) : lowerL l = l := by
  simp only [lowerL]
  induction l with
  | nil => rfl
  | cons c tl ih =>
    rw [List.map_cons, h c (by simp), ih (fun x hx => h x (by simp [hx]))]

theorem dropWhile_id_of (p : Char → Bool) (l : List Char) (h : ∀ c ∈ l, p c = false) :
    l.dropWhile p = l := by
  cases l with
  | nil => rfl
  | cons c tl => exact List.dropWhile_cons_of_neg (by simp [h c (by simp)])

theorem trimL_id (l : List Char) (h : ∀ c ∈ l, isWs c = false) : trimL l = l := by
  simp only [trimL]
  rw [dropWhile_id_of _ _ h, dropWhile_id_of, List.reverse_reverse]
  intro c hc
  exact h c (by simpa using hc)

theorem takeWhile_all (p : Char → Bool) (l : List Char) (h : ∀ c ∈ l, p c = true) :
    l.takeWhile p = l ∧ l.dropWhile p = [] := by
  induction l with
  | nil => exact ⟨rfl, rfl⟩
  | cons c tl ih =>
    obtain ⟨ih1, ih2⟩ := ih (fun x hx => h x (by simp [hx]))
    refine ⟨?_, ?_⟩
    · rw [List.takeWhile_cons_of_pos (by simp [h c (by simp)]), ih1]
    · rw [List.dropWhile_cons_of_pos (by simp [h c (by simp)]), ih2]

theorem split_run (p : Char → Bool) (ds rest : List Char) (hds : ∀ c ∈ ds, p c = true)
    (hrest : ∀ c, rest.head? = some c → p c = false) :
    (ds ++ rest).takeWhile p = ds ∧ (ds ++ rest).dropWhile p = rest := by
  induction ds with
  | nil =>
    simp only [List.nil_append]
    cases rest with
    | nil => exact ⟨rfl, rfl⟩
    | cons r rt =>
      have hr := hrest r rfl
      exact ⟨List.takeWhile_cons_of_neg (by simp [hr]),
        List.dropWhile_cons_of_neg (by simp [hr])⟩
  | cons c ds' ih =>
    obtain ⟨ih1, ih2⟩ := ih (fun x hx => hds x (by simp [hx]))
    have hc := hds c (by simp)
    refine ⟨?_, ?_⟩
    · simp only [List.cons_append]
      rw [List.takeWhile_cons_of_pos (by simp [hc]), ih1]
    · simp only [List.cons_append]
      rw [List.dropWhile_cons_of_pos (by simp [hc]), ih2]

theorem mem_of_mem_dropWhile (p : Char → Bool) (c : Char) (l : List Char)
    (h : c ∈ l.dropWhile p) : c ∈ l := by
  induction l with
  | nil => simpa using h
  | cons a tl ih =>
    by_cases hp : p a
    · rw [List.dropWhile_cons_of_pos hp] at h
      exact List.mem_cons_of_mem a (ih h)
    · rwa [List.dropWhile_cons_of_neg hp] at h

theorem delAllAux_app (a : Char) (p' ds rest : List Char)
    (h : ∀ c ∈ ds, (a == c) = false) :
    delAllAux (a :: p') (ds.length + rest.length) (ds ++ rest) =
      ds ++ delAllAux (a :: p') rest.length rest := by
  induction ds with
  | nil => simp
  | cons c ds' ih =>
    have hac := h c (by simp)
    have harr : (c :: ds').length + rest.length = (ds'.length + rest.length) + 1 := by
      simp only [List.length_cons]; omega
    rw [harr, List.cons_append, delAllAux, if_neg]
    · rw [ih (fun x hx => h x (by simp [hx]))]
      rfl
    · intro ⟨_, hleads⟩
      simp only [leads, hac, Bool.false_and] at hleads
      exact Bool.false_ne_true hleads

theorem delAll_app (a : Char) (p' ds rest : List Char) (h : ∀ c ∈ ds, (a == c) = false) :
    delAll (a :: p') (ds ++ rest) = ds ++ delAll (a :: p') rest := by
  simp only [delAll, List.length_append]
  exact delAllAux_app a p' ds rest h

theorem sepAt_false (l : List Char) (k : ℕ) (h : ∀ c ∈ l, isSep c = false) :
    sepAt l k = false := by
  simp only [sepAt]
  split
  · rename_i c rest heq
    exact h c (List.mem_of_mem_drop (heq ▸ List.mem_cons_self c rest))
  · rfl

theorem dateMatchAt_false (l : List Char) (h : ∀ c ∈ l, isSep c = false) :
    dateMatchAt l = false := by
  simp only [dateMatchAt]
  refine List.any_eq_false.mpr fun k1 _ => ?_
  simp [sepAt_false l k1 h]

theorem hasDatePattern_false (l : List Char) (h : ∀ c ∈ l, isSep c = false) :
    hasDatePattern l = false := by
  simp only [hasDatePattern]
  refine List.any_eq_false.mpr fun t ht => ?_
  obtain ⟨s, rfl⟩ := (List.mem_tails t l).mp ht
  simp [dateMatchAt_false t (fun c hc => h c (List.mem_append.mpr (Or.inr hc)))]

theorem wsSkip_false (t : Char) (r : List Char) (h : ∀ c ∈ r, (c == t) = false) :
    wsSkipHeadIs t r = false := by
  simp only [wsSkipHeadIs]
  split
  · rename_i c rest heq
    exact h c (mem_of_mem_dropWhile isWs c r (heq ▸ List.mem_cons_self c rest))
  · rfl

theorem wsSkip_head (t : Char) (rest : List Char) (ht : isWs t = false) :
    wsSkipHeadIs t (t :: rest) = true := by
  simp only [wsSkipHeadIs]
  rw [List.dropWhile_cons_of_neg (by simp [ht])]
  simp

theorem searchNum_none (t : Char) (l : List Char) (h : ∀ c ∈ l, (c == t) = false) :
    searchNumThen t l = none := by
  induction l with
  | nil => rfl
  | cons c tl ih =>
    have ihtl := ih (fun x hx => h x (List.mem_cons_of_mem c hx))
    by_cases hc : c.isDigit
    · simp only [searchNumThen]
      rw [if_pos hc]
      have hsub1 : ∀ x ∈ List.dropWhile Char.isDigit (c :: tl), (x == t) = false :=
        fun x hx => h x (mem_of_mem_dropWhile _ x _ hx)
      split
      · rename_i fr heq
        have hfr : ∀ x ∈ fr, (x == t) = false :=
          fun x hx => hsub1 x (heq ▸ List.mem_cons_of_mem '.' hx)
        have hdotfr : ∀ x ∈ ('.' :: fr), (x == t) = false := fun x hx => hsub1 x (heq ▸ hx)
        split
        · rw [if_neg (by simp [wsSkip_false t ('.' :: fr) hdotfr]), ihtl]
        · rw [if_neg (by simp [wsSkip_false t (fr.dropWhile Char.isDigit)
              (fun x hx => hfr x (mem_of_mem_dropWhile _ x _ hx))]),
            if_neg (by simp [wsSkip_false t ('.' :: fr) hdotfr]), ihtl]
      · rw [if_neg (by simp [wsSkip_false t _ hsub1]), ihtl]
    · simp only [searchNumThen]
      rw [if_neg hc, ihtl]

theorem searchNum_found (t : Char) (ds rest' : List Char) (hne : ds ≠ [])
    (hds : ∀ c ∈ ds, c.isDigit = true) (htd : t.isDigit = false)
    (htdot : ¬ t = '.') (htws : isWs t = false) :
    searchNumThen t (ds ++ t :: rest') = some ((digitsVal ds : ℚ)) := by
  cases ds with
  | nil => exact absurd rfl hne
  | cons c ds' =>
    have hc := hds c (by simp)
    obtain ⟨htw, hdw⟩ := split_run Char.isDigit (c :: ds') (t :: rest') hds
      (fun x hx => by cases hx; exact htd)
    simp only [List.cons_append] at htw hdw
    show searchNumThen t (c :: (ds' ++ t :: rest')) = some ((digitsVal (c :: ds') : ℚ))
    simp only [searchNumThen]
    rw [if_pos hc, hdw, htw]
    split
    · rename_i fr heq
      injection heq with h1 _
      exact absurd h1 htdot
    · rw [if_pos (wsSkip_head t rest' htws)]

theorem pyFloat_digits (ds : List Char) (hne : ds ≠ [])
    (hds : ∀ c ∈ ds, c.isDigit = true) :
    pyFloat ds = some ((digitsVal ds : ℚ)) := by
  cases ds with
  | nil => exact absurd rfl hne
  | cons c ds' =>
    have hc := hds c (by simp)
    have htr : trimL (c :: ds') = c :: ds' :=
      trimL_id _ (fun x hx => isWs_false_of_isDigit x (hds x hx))
    obtain ⟨htw, hdw⟩ := takeWhile_all Char.isDigit (c :: ds') hds
    simp only [pyFloat, htr, beq_false_of_isDigit c '+' hc (by decide),
      beq_false_of_isDigit c '-' hc (by decide), Bool.false_eq_true, if_false]
    simp only [parseUnsigned, htw, hdw]
    simp

theorem pyFloat_junk (ds R' : List Char) (r : Char) (hne : ds ≠ [])
    (hds : ∀ c ∈ ds, c.isDigit = true) (hws : ∀ c ∈ ds ++ r :: R', isWs c = false)
    (hrd : r.isDigit = false) (hrdot : ¬ r = '.') :
    pyFloat (ds ++ r :: R') = none := by
  cases ds with
  | nil => exact absurd rfl hne
  | cons c ds' =>
    have hc := hds c (by simp)
    have htr : trimL ((c :: ds') ++ r :: R') = (c :: ds') ++ r :: R' := trimL_id _ hws
    obtain ⟨htw, hdw⟩ := split_run Char.isDigit (c :: ds') (r :: R') hds
      (fun x hx => by cases hx; exact hrd)
    simp only [List.cons_append] at htr htw hdw
    show pyFloat (c :: (ds' ++ r :: R')) = none
    simp only [pyFloat, htr, beq_false_of_isDigit c '+' hc (by decide),
      beq_false_of_isDigit c '-' hc (by decide), Bool.false_eq_true, if_false]
    simp only [parseUnsigned, htw, hdw]
    split
    · rename_i heq
      cases heq
    · rename_i fr heq
      injection heq with h1 _
      exact absurd h1 hrdot
    · rfl

theorem rhe_bounds (x : ℚ) : ⌊x⌋ ≤ rhe x ∧ rhe x ≤ ⌊x⌋ + 1 := by
  simp only [rhe]
  split
  · omega
  · split
    · omega
    · split <;> omega

theorem round2_natCast (n : ℕ) : round2 (n : ℚ) = n := by
  have hx : ((n : ℚ)) * 100 = (((n * 100 : ℕ) : ℤ) : ℚ) := by push_cast; ring
  simp only [round2, rhe, hx, Int.floor_intCast]
  rw [if_pos (by norm_num)]
  push_cast
  rw [mul_div_assoc]
  norm_num

theorem round2_pos (x : ℚ) (h : 1 ≤ x * 100) : 0 < round2 x := by
  have h1 : (1 : ℤ) ≤ ⌊x * 100⌋ := Int.le_floor.mpr (by exact_mod_cast h)
  have h2 := (rhe_bounds (x * 100)).1
  have h3 : (1 : ℚ) ≤ ((rhe (x * 100) : ℤ) : ℚ) := by exact_mod_cast le_trans h1 h2
  simp only [round2]
  exact div_pos (by linarith) (by norm_num)

theorem round2_lt150 (x : ℚ) (h : x * 100 + 1 < 15000) : round2 x < 150 := by
  have h2 := (rhe_bounds (x * 100)).2
  have hf : ((⌊x * 100⌋ : ℤ) : ℚ) ≤ x * 100 := Int.floor_le _
  have h3 : ((rhe (x * 100) : ℤ) : ℚ) ≤ x * 100 + 1 := by
    have h4 : ((rhe (x * 100) : ℤ) : ℚ) ≤ ((⌊x * 100⌋ + 1 : ℤ) : ℚ) := by exact_mod_cast h2
    push_cast at h4
    linarith
  simp only [round2]
  rw [div_lt_iff (by norm_num)]
  linarith

theorem composeAge_years (n : ℕ) (hpos : 0 < n) (hlt : n < 150) :
    composeAge ((n : ℚ), 0) = some ((n : ℚ)) := by
  simp only [composeAge]
  rw [show ((((n : ℚ), (0 : ℚ)).1 + ((n : ℚ), (0 : ℚ)).2 / 12) : ℚ) = (n : ℚ) by norm_num,
    round2_natCast]
  simp only [acceptAge]
  rw [if_pos ⟨by exact_mod_cast hpos, by exact_mod_cast hlt⟩]

theorem composeAge_months (n : ℕ) (hpos : 0 < n) (hlt : n < 150) :
    composeAge (0, (n : ℚ)) = some (round2 ((n : ℚ) / 12)) := by
  have h1 : (1 : ℚ) ≤ (n : ℚ) := by exact_mod_cast hpos
  have h2 : (n : ℚ) ≤ 149 := by exact_mod_cast (by omega : n ≤ 149)
  simp only [composeAge]
  rw [show ((((0 : ℚ), (n : ℚ)).1 + ((0 : ℚ), (n : ℚ)).2 / 12) : ℚ) = (n : ℚ) / 12 by norm_num]
  simp only [acceptAge]
  rw [if_pos]
  refine ⟨round2_pos _ (by linarith), round2_lt150 _ (by linarith)⟩

theorem parse_age_txt (l : List Char) (hne : l ≠ []) :
    parse_age (.txt ⟨l⟩) = parseAgeChars l := by
  simp only [parse_age]
  rw [if_neg]
  intro he
  exact hne (congrArg String.data he)

theorem norm_id (ds suf : List Char) (hds : ∀ c ∈ ds, c.isDigit = true)
    (hsuf : ∀ c ∈ suf, c.toLower = c ∧ isWs c = false) :
    trimL (lowerL (ds ++ suf)) = ds ++ suf := by
  rw [lowerL_id, trimL_id]
  · intro c hc
    rcases List.mem_append.mp hc with h | h
    · exact isWs_false_of_isDigit c (hds c h)
    · exact (hsuf c h).2
  · intro c hc
    rcases List.mem_append.mp hc with h | h
    · exact toLower_of_isDigit c (hds c h)
    · exact (hsuf c h).1

theorem cleanOf_app (ds suf R : List Char) (hds : ∀ c ∈ ds, c.isDigit = true)
    (hcomp : delAll ('y' :: 'r' :: '.' :: [])
      (delAll ('y' :: 'r' :: 's' :: []) (delAll ('y' :: 'r' :: []) suf)) = R)
    (hws : ∀ c ∈ ds ++ R, isWs c = false) :
    cleanOf (ds ++ suf) = ds ++ R := by
  have hY : ∀ c ∈ ds, (('y' : Char) == c) = false :=
    fun c hc => head_beq_false _ _ (by decide) (hds c hc)
  simp only [cleanOf]
  rw [delAll_app 'y' _ ds suf hY, delAll_app 'y' _ ds _ hY, delAll_app 'y' _ ds _ hY,
    hcomp, trimL_id _ hws]

/-- C8: for every age, gender and beneficiary, a missing (null/NaN) or
non-coercible hemoglobin makes `classify_anemia_who` return `incomplete`,
never one of the four numeric categories. -/
theorem C8_missing_hgb_incomplete (age : Option ℚ) (gender benef : Option String) :
    classify_anemia_who .missing age gender benef = .incomplete ∧
    classify_anemia_who .notNum age gender benef = .incomplete :=
  ⟨rfl, rfl⟩

/-- C10: when the (lower-cased, stripped) beneficiary string contains
`"pregnant"` and hemoglobin is numeric, the classification is the pregnancy
table applied to hemoglobin alone; the age and gender arguments cannot change
the outcome. -/
theorem C10_pregnant_noninterference (h : ℚ) (a₁ a₂ : Option ℚ) (g₁ g₂ b : Option String)
    (hseg : seg "pregnant".data (pyNormStr b) = true) :
    classify_anemia_who (.val h) a₁ g₁ b = gradeBy h 11 10 7 ∧
    classify_anemia_who (.val h) a₁ g₁ b = classify_anemia_who (.val h) a₂ g₂ b := by
  constructor
  · simp [classify_anemia_who, hseg]
  · simp [classify_anemia_who, hseg]

/-- C10 witness: a pregnant-women row at hemoglobin 10.5 grades `mild`
independently of age and gender. -/
theorem C10_pregnant_noninterference_wit :
    classify_anemia_who (.val 10.5) (some 3) (some "male") (some "Pregnant Women") =
      gradeBy 10.5 11 10 7 ∧
    classify_anemia_who (.val 10.5) (some 3) (some "male") (some "Pregnant Women") =
      classify_anemia_who (.val 10.5) none none (some "Pregnant Women") :=
  C10_pregnant_noninterference 10.5 (some 3) none (some "male") none
    (some "Pregnant Women") (by decide)

/-- C2: the code contradicts the pass-through claim.  A non-numeric beneficiary
string is destroyed by the `pd.to_numeric` coercion that overwrites the column
before `fillna` runs, so it ends as `"Nan"` rather than the title-cased original;
the six known numeric codes do map through the table. -/
theorem C2_beneficiary_passthrough_bug :
    normBenif (Cell.txt "Lactating Mother") = "Nan" ∧
    normBenif (Cell.txt "Lactating Mother") ≠ titleStr "Lactating Mother" ∧
    normBenif (Cell.num 2) = "Pregnant Women" ∧
    normBenif (Cell.num 7) = "Women Of Reproductive Age" := by
  refine ⟨by decide, by decide, by decide, by decide⟩

/-- C1 counterexample: with no hemoglobin column in the input, the single
retained record's `anemiaCategory` is `None` — not a value of the closed
enum — even though an anemia value was supplied in the input. -/
theorem C1_no_hgb_column_cex :
    (load_data c1CexInput).map (fun nr => nr.anemia) = [none] := by decide

/-- C1 amended: the output never depends on the incoming anemia column, and
whenever the hemoglobin column is present every retained record's category is
one of the five enum values (it is the classifier's output); without the
column it is null instead. -/
theorem C1_anemia_recomputed (inp : LoadInput) (f : Option String → Option String) :
    load_data (mapAnemiaIn f inp) = load_data inp ∧
    (inp.hasHgbCol = true → ∀ nr ∈ load_data inp, ∃ c : Category, nr.anemia = some c) := by
  constructor
  · simp only [load_data, mapAnemiaIn, List.map_map]
    rfl
  · intro hH nr hmem
    simp only [load_data, List.mem_filter, List.mem_map] at hmem
    obtain ⟨⟨r, _, rfl⟩, _⟩ := hmem
    refine ⟨classify_anemia_who (hgbInput r.hgb) (resolveAge inp.now r) r.gender
      (some (normBenif r.benificiery)), ?_⟩
    simp [normalizeRecord, hH]

/-- C1 witness: on a concrete one-row table with an `HGB` column, rewriting the
incoming anemia column changes nothing and the retained record's category is a
proper enum value. -/
theorem C1_anemia_recomputed_wit :
    load_data (mapAnemiaIn (fun _ => some "severe") c1WitInput) = load_data c1WitInput ∧
    ∃ c : Category, (normalizeRecord true 0 c1WitRecord).anemia = some c := by
  have h := C1_anemia_recomputed c1WitInput (fun _ => some "severe")
  have hld : load_data c1WitInput = [normalizeRecord true 0 c1WitRecord] := rfl
  exact ⟨h.1, h.2 rfl (normalizeRecord true 0 c1WitRecord)
    (hld ▸ List.mem_singleton.mpr rfl)⟩

/-- C6: every record retained by `load_data` has a resolved age or a usable
beneficiary category; equivalently, a record with neither is absent from the
working set regardless of its anemia classification. -/
theorem C6_retention (inp : LoadInput) (nr : NormRecord) (hmem : nr ∈ load_data inp) :
    nr.age.isSome = true ∨ hasBeneficiary nr.benificiery = true := by
  simp only [load_data, List.mem_filter] at hmem
  have h := hmem.2
  simpa [retain] using h

/-- C6 witness: a concrete retained record (age present, beneficiary missing). -/
theorem C6_retention_wit :
    (normalizeRecord true 0 c6WitRecord).age.isSome = true ∨
    hasBeneficiary (normalizeRecord true 0 c6WitRecord).benificiery = true :=
  C6_retention c6WitInput (normalizeRecord true 0 c6WitRecord)
    ((show load_data c6WitInput = [normalizeRecord true 0 c6WitRecord] by
        with_unfolding_all rfl) ▸ List.mem_singleton.mpr rfl)

/-- C4 counterexample: the already-numeric path returns `0` unchanged, which is
not strictly between 0 and 150. -/
theorem C4_numeric_zero_cex : parse_age (.num 0) = some 0 ∧ ¬ (0 < (0 : ℚ)) :=
  ⟨by norm_num [parse_age], by norm_num⟩

/-- C4 amended: the resolver returns null or a number `< 150`; the
already-numeric path accepts exactly the values `< 150` and returns them
unchanged (zero, negative and more-than-2-decimal values included). -/
theorem C4_numeric_path (x : AgeInput) :
    (∀ q : ℚ, x = AgeInput.num q → parse_age x = if q < 150 then some q else none) ∧
    (∀ v : ℚ, parse_age x = some v → v < 150) := by
  constructor
  · rintro q rfl; rfl
  · exact fun v h => parse_age_lt x v h

/-- C4 witness: the numeric input 7 is accepted, returned unchanged, and below
the bound. -/
theorem C4_numeric_path_wit : parse_age (.num 7) = some 7 ∧ (7 : ℚ) < 150 := by
  have h := C4_numeric_path (.num 7)
  have h1 := h.1 7 rfl
  rw [if_pos (by norm_num)] at h1
  exact ⟨h1, h.2 7 h1⟩

/-- C3 counterexample: the gender string `"Female"` contains `"male"`, yet with
hemoglobin 12.5, age 20 and no beneficiary match the code classifies `normal`
via the female table, where the male table demanded by the claim would give
`mild`. -/
theorem C3_female_contains_male_cex :
    seg "male".data (pyNormStr (some "Female")) = true ∧
    classify_anemia_who (.val 12.5) (some 20) (some "Female") none = Category.normal ∧
    gradeBy 12.5 13 11 8 = Category.mild := by
  refine ⟨by decide, by with_unfolding_all decide, by with_unfolding_all decide⟩

/-- C3 amended: with numeric hemoglobin, no beneficiary branch match and age at
least 12, the female table applies when the gender contains `"female"` or
equals `"f"`; otherwise the male table applies when the gender contains
`"male"` or equals `"m"`; any other gender falls back to the female table. -/
theorem C3_gender_table_selection (h a : ℚ) (g b : Option String)
    (hbm : benifMatches (pyNormStr b) (pyNormStr g) = false) (ha : 12 ≤ a) :
    classify_anemia_who (.val h) (some a) g b =
      (if seg "female".data (pyNormStr g) || pyNormStr g == "f".data then gradeBy h 12 11 8
       else if seg "male".data (pyNormStr g) || pyNormStr g == "m".data then gradeBy h 13 11 8
       else gradeBy h 12 11 8) := by
  simp only [benifMatches, Bool.or_eq_false_iff] at hbm
  obtain ⟨⟨⟨⟨⟨h1, h2a, h2b⟩, h3a, h3b⟩, h4a, h4b⟩, h5a, h5b⟩, h6a, h6b⟩ := hbm
  simp only [classify_anemia_who]
  rw [if_neg (by simp [h1]), if_neg (by simp [h2a, h2b]), if_neg (by simp [h3a, h3b]),
    if_neg (by simp [h4a, h4b]), if_neg (by simp [h5a, h5b]), if_neg (by simp [h6a, h6b]),
    if_neg (by push_neg; linarith), if_neg (by push_neg; linarith)]

/-- C3 witness: an unambiguous male record at hemoglobin 12.5 and age 20 is
graded by the male table, giving `mild`. -/
theorem C3_gender_table_selection_wit :
    classify_anemia_who (.val 12.5) (some 20) (some "Male") none = Category.mild := by
  have h := C3_gender_table_selection 12.5 20 (some "Male") none (by decide) (by norm_num)
  rw [h]
  with_unfolding_all decide

theorem filterBy_comm (g₁ : Row → Option String) (s₁ : List String)
    (g₂ : Row → Option String) (s₂ : List String) (l : List Row) :
    filterBy g₁ s₁ (filterBy g₂ s₂ l) = filterBy g₂ s₂ (filterBy g₁ s₁ l) := by
  unfold filterBy
  by_cases h₁ : s₁ = [] <;> by_cases h₂ : s₂ = [] <;> simp [h₁, h₂]
  exact List.filter_congr fun r _ => Bool.and_comm _ _

/-- C7: each dropdown's option list equals the distinct values of its own
dimension in the record set filtered by exactly the other three active
dimensions (with the PSU selection as pruned and re-emitted by the callback) —
neither the unfiltered set nor the set filtered by the dimension itself. -/
theorem C7_cascading_options (rows : List Row) (s : Sel) :
    psuOptions rows s = optionsFor Dim.psu rows (effSel rows s) ∧
    areaOptions rows s = optionsFor Dim.area rows (effSel rows s) ∧
    benifOptions rows s = optionsFor Dim.benif rows (effSel rows s) ∧
    anemiaOptions rows s = optionsFor Dim.anemia rows (effSel rows s) := by
  refine ⟨rfl, rfl, ?_, ?_⟩
  · show sortedUnique ((filterBy Row.anemia s.anemia (filterBy Row.psu (cleanedPsu rows s)
        (filterBy Row.area s.area rows))).map Row.benif) =
      sortedUnique ((filterBy Row.anemia s.anemia (filterBy Row.area s.area
        (filterBy Row.psu (cleanedPsu rows s) rows))).map Row.benif)
    rw [filterBy_comm Row.psu (cleanedPsu rows s) Row.area s.area rows]
  · show sortedUnique ((filterBy Row.benif s.benif (filterBy Row.psu (cleanedPsu rows s)
        (filterBy Row.area s.area rows))).map Row.anemia) =
      sortedUnique ((filterBy Row.benif s.benif (filterBy Row.area s.area
        (filterBy Row.psu (cleanedPsu rows s) rows))).map Row.anemia)
    rw [filterBy_comm Row.psu (cleanedPsu rows s) Row.area s.area rows]

/-- C5 counterexample: the month suffix is not stripped-and-ignored — `"21m"`
resolves to `21/12` months `= 1.75` years, not to `21`. -/
theorem C5_month_suffix_cex :
    parse_age (.txt "21m") = some (7 / 4) ∧ ((7 : ℚ) / 4) ≠ 21 := by
  constructor
  · with_unfolding_all decide
  · norm_num

/-- C5 amended: for a digit string of value `n` with `0 < n < 150`, the year
suffixes `yr`, `yrs`, `y`, `year` yield `n` (via the direct parse for `yr`,
via the year regex otherwise), while the month suffixes `m`, `mo`, `month` are
interpreted as months, yielding `round(n / 12, 2)`. -/
theorem C5_suffix_parsing (ds : List Char) (hne : ds ≠ [])
    (hds : ∀ c ∈ ds, c.isDigit = true) (hpos : 0 < digitsVal ds)
    (hlt : digitsVal ds < 150) :
    parse_age (.txt ⟨ds ++ "yr".data⟩) = some ((digitsVal ds : ℚ)) ∧
    parse_age (.txt ⟨ds ++ "yrs".data⟩) = some ((digitsVal ds : ℚ)) ∧
    parse_age (.txt ⟨ds ++ "y".data⟩) = some ((digitsVal ds : ℚ)) ∧
    parse_age (.txt ⟨ds ++ "year".data⟩) = some ((digitsVal ds : ℚ)) ∧
    parse_age (.txt ⟨ds ++ "m".data⟩) = some (round2 ((digitsVal ds : ℚ) / 12)) ∧
    parse_age (.txt ⟨ds ++ "mo".data⟩) = some (round2 ((digitsVal ds : ℚ) / 12)) ∧
    parse_age (.txt ⟨ds ++ "month".data⟩) = some (round2 ((digitsVal ds : ℚ) / 12)) := by
  have hapne : ∀ suf : List Char, ds ++ suf ≠ [] :=
    fun suf h => hne (List.append_eq_nil.mp h).1
  have hqlt : (digitsVal ds : ℚ) < 150 := by exact_mod_cast hlt
  have h1900 : ¬ ((1900 : ℚ) < (digitsVal ds : ℚ)) := fun hgt => by linarith
  have hmem : ∀ {Q : Char → Prop} (suf : List Char), (∀ c ∈ ds, Q c) → (∀ c ∈ suf, Q c) →
      ∀ c ∈ ds ++ suf, Q c :=
    fun suf h1 h2 c hc => (List.mem_append.mp hc).elim (h1 c) (h2 c)
  have hdws : ∀ c ∈ ds, isWs c = false := fun c hc => isWs_false_of_isDigit c (hds c hc)
  have hdsep : ∀ c ∈ ds, isSep c = false := fun c hc => isSep_false_of_isDigit c (hds c hc)
  have hdm : ∀ c ∈ ds, (c == 'm') = false :=
    fun c hc => beq_false_of_isDigit c 'm' (hds c hc) (by decide)
  have hdy : ∀ c ∈ ds, (c == 'y') = false :=
    fun c hc => beq_false_of_isDigit c 'y' (hds c hc) (by decide)
  refine ⟨?_, ?_, ?_, ?_, ?_, ?_, ?_⟩
  · -- "yr": the replace strips the suffix and the direct float parse succeeds
    rw [parse_age_txt _ (hapne _)]
    simp only [parseAgeChars]
    rw [norm_id ds "yr".data hds (by decide),
      cleanOf_app ds "yr".data [] hds (by decide) (hmem [] hdws (by decide)),
      List.append_nil, pyFloat_digits ds hne hds]
    show floatCap ((digitsVal ds : ℚ)) = some ((digitsVal ds : ℚ))
    simp only [floatCap]
    rw [if_pos hqlt]
  · -- "yrs": float fails on the residue "s"; the year regex finds the number
    rw [parse_age_txt _ (hapne _)]
    simp only [parseAgeChars]
    rw [norm_id ds "yrs".data hds (by decide),
      cleanOf_app ds "yrs".data "s".data hds (by decide) (hmem "s".data hdws (by decide)),
      pyFloat_junk ds [] 's' hne hds (hmem _ hdws (by decide)) (by decide) (by decide)]
    show regexBranch (ds ++ "yrs".data) = some ((digitsVal ds : ℚ))
    simp only [regexBranch]
    rw [hasDatePattern_false _ (hmem _ hdsep (by decide))]
    simp only [Bool.false_eq_true, if_false]
    rw [searchNum_found 'y' ds "rs".data hne hds (by decide) (by decide) (by decide),
      searchNum_none 'm' _ (hmem _ hdm (by decide))]
    simp only [ymPick, Option.isSome_some, Option.isSome_none, Bool.or_false,
      Option.getD_some, Option.getD_none, if_true]
    rw [if_neg h1900]
    exact composeAge_years (digitsVal ds) hpos hlt
  · -- "y": no replace applies; the year regex finds the number
    rw [parse_age_txt _ (hapne _)]
    simp only [parseAgeChars]
    rw [norm_id ds "y".data hds (by decide),
      cleanOf_app ds "y".data "y".data hds (by decide) (hmem "y".data hdws (by decide)),
      pyFloat_junk ds [] 'y' hne hds (hmem _ hdws (by decide)) (by decide) (by decide)]
    show regexBranch (ds ++ "y".data) = some ((digitsVal ds : ℚ))
    simp only [regexBranch]
    rw [hasDatePattern_false _ (hmem _ hdsep (by decide))]
    simp only [Bool.false_eq_true, if_false]
    rw [searchNum_found 'y' ds [] hne hds (by decide) (by decide) (by decide),
      searchNum_none 'm' _ (hmem _ hdm (by decide))]
    simp only [ymPick, Option.isSome_some, Option.isSome_none, Bool.or_false,
      Option.getD_some, Option.getD_none, if_true]
    rw [if_neg h1900]
    exact composeAge_years (digitsVal ds) hpos hlt
  · -- "year": no replace applies; the year regex finds the number
    rw [parse_age_txt _ (hapne _)]
    simp only [parseAgeChars]
    rw [norm_id ds "year".data hds (by decide),
      cleanOf_app ds "year".data "year".data hds (by decide)
        (hmem "year".data hdws (by decide)),
      pyFloat_junk ds "ear".data 'y' hne hds (hmem _ hdws (by decide)) (by decide) (by decide)]
    show regexBranch (ds ++ "year".data) = some ((digitsVal ds : ℚ))
    simp only [regexBranch]
    rw [hasDatePattern_false _ (hmem _ hdsep (by decide))]
    simp only [Bool.false_eq_true, if_false]
    rw [searchNum_found 'y' ds "ear".data hne hds (by decide) (by decide) (by decide),
      searchNum_none 'm' _ (hmem _ hdm (by decide))]
    simp only [ymPick, Option.isSome_some, Option.isSome_none, Bool.or_false,
      Option.getD_some, Option.getD_none, if_true]
    rw [if_neg h1900]
    exact composeAge_years (digitsVal ds) hpos hlt
  · -- "m": months regex; the value is divided by 12
    rw [parse_age_txt _ (hapne _)]
    simp only [parseAgeChars]
    rw [norm_id ds "m".data hds (by decide),
      cleanOf_app ds "m".data "m".data hds (by decide) (hmem "m".data hdws (by decide)),
      pyFloat_junk ds [] 'm' hne hds (hmem _ hdws (by decide)) (by decide) (by decide)]
    show regexBranch (ds ++ "m".data) = some (round2 ((digitsVal ds : ℚ) / 12))
    simp only [regexBranch]
    rw [hasDatePattern_false _ (hmem _ hdsep (by decide))]
    simp only [Bool.false_eq_true, if_false]
    rw [searchNum_none 'y' _ (hmem _ hdy (by decide)),
      searchNum_found 'm' ds [] hne hds (by decide) (by decide) (by decide)]
    simp only [ymPick, Option.isSome_some, Option.isSome_none, Bool.false_or,
      Option.getD_some, Option.getD_none, if_true]
    rw [if_neg (by norm_num)]
    exact composeAge_months (digitsVal ds) hpos hlt
  · -- "mo"
    rw [parse_age_txt _ (hapne _)]
    simp only [parseAgeChars]
    rw [norm_id ds "mo".data hds (by decide),
      cleanOf_app ds "mo".data "mo".data hds (by decide) (hmem "mo".data hdws (by decide)),
      pyFloat_junk ds "o".data 'm' hne hds (hmem _ hdws (by decide)) (by decide) (by decide)]
    show regexBranch (ds ++ "mo".data) = some (round2 ((digitsVal ds : ℚ) / 12))
    simp only [regexBranch]
    rw [hasDatePattern_false _ (hmem _ hdsep (by decide))]
    simp only [Bool.false_eq_true, if_false]
    rw [searchNum_none 'y' _ (hmem _ hdy (by decide)),
      searchNum_found 'm' ds "o".data hne hds (by decide) (by decide) (by decide)]
    simp only [ymPick, Option.isSome_some, Option.isSome_none, Bool.false_or,
      Option.getD_some, Option.getD_none, if_true]
    rw [if_neg (by norm_num)]
    exact composeAge_months (digitsVal ds) hpos hlt
  · -- "month"
    rw [parse_age_txt _ (hapne _)]
    simp only [parseAgeChars]
    rw [norm_id ds "month".data hds (by decide),
      cleanOf_app ds "month".data "month".data hds (by decide)
        (hmem "month".data hdws (by decide)),
      pyFloat_junk ds "onth".data 'm' hne hds (hmem _ hdws (by decide)) (by decide)
        (by decide)]
    show regexBranch (ds ++ "month".data) = some (round2 ((digitsVal ds : ℚ) / 12))
    simp only [regexBranch]
    rw [hasDatePattern_false _ (hmem _ hdsep (by decide))]
    simp only [Bool.false_eq_true, if_false]
    rw [searchNum_none 'y' _ (hmem _ hdy (by decide)),
      searchNum_found 'm' ds "onth".data hne hds (by decide) (by decide) (by decide)]
    simp only [ymPick, Option.isSome_some, Option.isSome_none, Bool.false_or,
      Option.getD_some, Option.getD_none, if_true]
    rw [if_neg (by norm_num)]
    exact composeAge_months (digitsVal ds) hpos hlt

/-- C5 witness: `"21yr"` resolves to `21` and `"21m"` to `round(21/12, 2) = 1.75`. -/
theorem C5_suffix_parsing_wit :
    parse_age (.txt ⟨['2', '1'] ++ "yr".data⟩) = some ((digitsVal ['2', '1'] : ℚ)) ∧
    parse_age (.txt ⟨['2', '1'] ++ "m".data⟩) =
      some (round2 ((digitsVal ['2', '1'] : ℚ) / 12)) ∧
    (digitsVal ['2', '1'] : ℚ) = 21 ∧
    round2 ((digitsVal ['2', '1'] : ℚ) / 12) = 7 / 4 := by
  have h := C5_suffix_parsing ['2', '1'] (by decide) (by decide) (by decide) (by decide)
  exact ⟨h.1, h.2.2.2.2.1, by with_unfolding_all decide, by with_unfolding_all decide⟩

/-- C9: the age resolver is idempotent on its own output, and resolves null to
null. -/
theorem C9_parse_age_idem :
    parse_age AgeInput.null = none ∧
    ∀ x : AgeInput, parse_age (reinj (parse_age x)) = parse_age x := by
  refine ⟨rfl, fun x => ?_⟩
  cases h : parse_age x with
  | none => rfl
  | some v =>
    have hlt := parse_age_lt x v h
    simp [reinj, parse_age, hlt]

end Prakash
